import Mathlib

set_option maxRecDepth 4000

/-!
Verification development for the zen-target-docker plugin package.

The package translates declarative `docker_image` / `docker_container`
build-file configuration into `buildx`/`crane` command invocations and
Docker Engine API calls.  The source set holds two near-duplicate
revisions of the container code (`container.go` and the unnamed file,
called `Rev1` and `Rev0` here); their `GetPortBindings` functions are
textually identical, so it is embedded once, while `GetContainerEnv`
and the deploy `Run` closures differ and are embedded per revision.

Go strings are modelled as Lean `String`s; all separators used by the
code (`-`, `/`, `:`, `\n`, ` `) are single characters, so
`strings.Split` / `strings.Contains` are modelled by character-level
splitting over `String.data`.  Machine integers are modelled as
`Int`/`Nat` (the port values involved are far below any overflow
boundary).  A Go function returning `(T, error)` is modelled by
`GoOutcome`, which also has an explicit constructor for runtime panics
(`strconv.Atoi` failure panics and slice index-out-of-range panics).
-/

namespace ZenDocker

deriving instance DecidableEq for Except

/-- models the outcome of a Go function returning `(T, error)`: a normal
return, an error return (Go named-return style may hand back a partial
value alongside the error, carried here as an `Option`), or a runtime
panic (`crash`). -/
inductive GoOutcome (α : Type) where
  | ok : α → GoOutcome α
  | errRet : Option α → String → GoOutcome α
  | crash : String → GoOutcome α
deriving Repr, DecidableEq

/-- decimal digit character for `n < 10`, as emitted by Go `strconv`. -/
def digitChar (n : Nat) : Char := Char.ofNat (48 + n)

/-- fuel-driven most-significant-first decimal digit list of a natural
number; models the digit emission of Go `strconv.Itoa` /
`fmt.Sprintf("%d", ·)`.  The fuel argument only serves structural
termination; `natToDigits` supplies enough fuel. -/
def natToDigitsAux : Nat → Nat → List Char
  | 0, _ => []
  | f + 1, n =>
    if n < 10 then [digitChar n]
    else natToDigitsAux f (n / 10) ++ [digitChar (n % 10)]

/-- decimal digit list of a natural number, most significant first. -/
def natToDigits (n : Nat) : List Char := natToDigitsAux (n + 1) n

/-- decimal string of a natural number (Go `strconv.Itoa` on
non-negative values, `fmt.Sprintf("%d", ·)` on unsigned values). -/
def natStr (n : Nat) : String := ⟨natToDigits n⟩

/-- models Go `strconv.Itoa` on machine integers. -/
def itoa (i : Int) : String :=
  if i < 0 then "-" ++ natStr (-i).toNat else natStr i.toNat

/-- numeric value of a decimal digit character, `none` on anything else. -/
def digitVal (c : Char) : Option Nat :=
  if 48 ≤ c.toNat ∧ c.toNat ≤ 57 then some (c.toNat - 48) else none

/-- left-to-right decimal accumulation over a digit list, failing on the
first non-digit character. -/
def parseDigitsAux : List Char → Nat → Option Nat
  | [], acc => some acc
  | c :: rest, acc =>
    match digitVal c with
    | none => none
    | some d => parseDigitsAux rest (acc * 10 + d)

/-- parses a non-empty all-digit character list as a natural number. -/
def parseDigits (l : List Char) : Option Nat :=
  if l = [] then none else parseDigitsAux l 0

/-- models Go `strconv.ParseUint(s, 10, 16)`: a non-empty unsigned
decimal numeral whose value fits in 16 bits. -/
def parseUint16 (s : String) : Option Nat :=
  match parseDigits s.data with
  | none => none
  | some n => if n < 65536 then some n else none

/-- models Go `strconv.Atoi` on a 64-bit platform (`ParseInt(s, 10, 0)`
with 64-bit `int`): optional sign followed by a non-empty digit string,
failing with a range error on values outside
`[-2^63, 2^63 - 1]` just like Go's `ErrRange`. -/
def atoi (s : String) : Option Int :=
  match s.data with
  | [] => none
  | c :: rest =>
    if c = '+' then
      match parseDigits rest with
      | some n => if n ≤ 9223372036854775807 then some ((n : Int)) else none
      | none => none
    else if c = '-' then
      match parseDigits rest with
      | some n => if n ≤ 9223372036854775808 then some (-(n : Int)) else none
      | none => none
    else
      match parseDigits (c :: rest) with
      | some n => if n ≤ 9223372036854775807 then some ((n : Int)) else none
      | none => none

/-- splits a character list at every occurrence of `sep`; models Go
`strings.Split` for a single-character separator. -/
def splitChar (sep : Char) : List Char → List (List Char)
  | [] => [[]]
  | c :: rest =>
    let r := splitChar sep rest
    if c = sep then [] :: r
    else
      match r with
      | [] => [[c]]
      | p :: ps => (c :: p) :: ps

/-- models Go `strings.Split(s, sep)` for the single-character
separators used by this package. -/
def goSplit (s : String) (sep : Char) : List String :=
  (splitChar sep s.data).map (fun l => (⟨l⟩ : String))

/-- models Go `strings.Contains(s, sep)` for a single-character
separator. -/
def goContains (s : String) (sep : Char) : Bool := decide (sep ∈ s.data)

/-- length of the Go loop range `for i := start; i <= end; i++`. -/
def rangeLen (a b : Int) : Nat := (b - a + 1).toNat

/-- the values visited by the Go loop `for i := a; i <= b; i++`. -/
def upto (a b : Int) : List Int :=
  (List.range (rangeLen a b)).map (fun i => a + Int.ofNat i)

/-- models `nat.PortBinding` from docker/go-connections. -/
structure PortBinding where
  HostIP : String
  HostPort : String
deriving Repr, DecidableEq

/-- models `nat.PortMap` (`map[nat.Port][]nat.PortBinding`).  Go maps are
unordered; the model keeps entries in insertion order, and map update
(`m[k] = v`) is `mapSet`. -/
abbrev PortMap := List (String × List PortBinding)

/-- Go map assignment `m[k] = v`: replaces the value at `k` in place or
appends a fresh entry. -/
def mapSet (m : PortMap) (k : String) (v : List PortBinding) : PortMap :=
  match m with
  | [] => [(k, v)]
  | (k', v') :: rest =>
    if k' = k then (k, v) :: rest else (k', v') :: mapSet rest k v

/-- models `nat.ParsePortRange` from docker/go-connections: an empty
string is rejected; without a dash the string must be a 16-bit decimal
numeral; with a dash the first two dash-separated parts must be 16-bit
decimal numerals in non-decreasing order. -/
def ParsePortRange (ports : String) : Except String (Nat × Nat) :=
  if ports = "" then .error "empty string specified for ports"
  else if goContains ports '-' = false then
    match parseUint16 ports with
    | some n => .ok (n, n)
    | none => .error ("invalid port: " ++ ports)
  else
    match goSplit ports '-' with
    | p0 :: p1 :: _ =>
      match parseUint16 p0 with
      | none => .error ("invalid port: " ++ p0)
      | some a =>
        match parseUint16 p1 with
        | none => .error ("invalid port: " ++ p1)
        | some b =>
          if b < a then .error ("invalid range specified for port: " ++ ports)
          else .ok (a, b)
    | _ => .error "unreachable: a split always has at least one part"

/-- models `nat.NewPort` from docker/go-connections: parses the port
(range) and formats it back as `start/proto` or `start-end/proto`. -/
def NewPort (proto port : String) : Except String String :=
  match ParsePortRange port with
  | .error e => .error e
  | .ok (a, b) =>
    if a = b then .ok (natStr a ++ "/" ++ proto)
    else .ok (natStr a ++ "-" ++ natStr b ++ "/" ++ proto)

/-- container-port / protocol split of a ports-map key
(container.go lines 200–207): `cp/proto` yields `(cp, proto)`, a bare
key yields `(key, "tcp")`. -/
def splitProto (key : String) : String × String :=
  if goContains key '/' then
    match goSplit key '/' with
    | s :: p :: _ => (s, p)
    | _ => (key, "tcp")
  else (key, "tcp")

/-- host-IP / host-port split of a ports-map value
(container.go lines 209–216): `ip:hp` yields `(ip, hp)`, a bare value
yields `("127.0.0.1", value)`. -/
def splitHost (value : String) : String × String :=
  if goContains value ':' then
    match goSplit value ':' with
    | ipp :: hp :: _ => (ipp, hp)
    | _ => ("127.0.0.1", value)
  else ("127.0.0.1", value)

/-- range expansion step of `GetPortBindings` (container.go lines
218–255).  With a dash in the host ports both sides are split on `-`,
the first two parts of each are parsed with `strconv.Atoi` (a parse
failure is `panic("Invalid format")`), and both ranges are expanded
inclusively with `strconv.Itoa`; accessing the second part of a
container side that has no dash is a slice index-out-of-range panic.
Without a dash both sides pass through as singleton lists. -/
def expandRanges (hostPorts containerPorts : String) :
    GoOutcome (List String × List String) :=
  if goContains hostPorts '-' then
    match goSplit hostPorts '-' with
    | h0 :: h1 :: _ =>
      match atoi h0 with
      | none => .crash "Invalid format"
      | some hs =>
        match atoi h1 with
        | none => .crash "Invalid format"
        | some he =>
          match goSplit containerPorts '-' with
          | c0 :: crest =>
            match atoi c0 with
            | none => .crash "Invalid format"
            | some cs =>
              match crest with
              | [] => .crash "index out of range"
              | c1 :: _ =>
                match atoi c1 with
                | none => .crash "Invalid format"
                | some ce =>
                  .ok ((upto hs he).map itoa, (upto cs ce).map itoa)
          | [] => .crash "index out of range"
    | _ => .crash "index out of range"
  else .ok ([hostPorts], [containerPorts])

/-- final binding loop of `GetPortBindings` (container.go lines
257–266): walks the host range by index, reads the container range at
the same index (out of range is a runtime panic), builds the `nat.Port`
key (a `nat.NewPort` error is returned as `(nil, err)`), and assigns a
singleton binding list into the map. -/
def bindLoop (proto hostIp : String) :
    List String → List String → PortMap → GoOutcome PortMap
  | [], _, m => .ok m
  | _ :: _, [], _ => .crash "index out of range"
  | h :: hrest, c :: crest, m =>
    match NewPort proto c with
    | .error e => .errRet none e
    | .ok port => bindLoop proto hostIp hrest crest (mapSet m port [⟨hostIp, h⟩])

/-- body of the `GetPortBindings` loop for one ports-map entry
(container.go lines 192–266): the dash-mismatch validation (which
returns the partial map alongside the error), the proto / host-IP
splits, the range expansion and the binding loop. -/
def processEntry (m : PortMap) (key value : String) : GoOutcome PortMap :=
  if goContains key '-' ≠ goContains value '-' then
    .errRet (some m) ("port " ++ key ++ " and " ++ value ++ " differ in range")
  else
    match expandRanges (splitHost value).2 (splitProto key).1 with
    | .crash e => .crash e
    | .errRet _ e => .errRet none e
    | .ok (hostRange, containerRange) =>
      bindLoop (splitProto key).2 (splitHost value).1 hostRange containerRange m

/-- loop of `GetPortBindings` over the remaining entries, carrying the
map accumulated so far. -/
def GetPortBindingsAux (m : PortMap) : List (String × String) → GoOutcome PortMap
  | [] => .ok m
  | (k, v) :: rest =>
    match processEntry m k v with
    | .ok m' => GetPortBindingsAux m' rest
    | .errRet mm e => .errRet mm e
    | .crash e => .crash e

/-- embedding of `GetPortBindings` (identical in container.go lines
190–270 and in the unnamed revision lines 176–256).  The Go `ports`
map is modelled as a list of key/value entries in iteration order. -/
def GetPortBindings (ports : List (String × String)) : GoOutcome PortMap :=
  GetPortBindingsAux [] ports

/-- true when the given outcome is an error return. -/
def isErr {α : Type} : GoOutcome α → Bool
  | .errRet _ _ => true
  | _ => false

/-- true when the given outcome is a runtime panic. -/
def isCrash {α : Type} : GoOutcome α → Bool
  | .crash _ => true
  | _ => false

/-- per-entry safety condition taken from the claim wording: whenever
the host side of an entry is a dash-delimited range, both the host and
the container side must split into numeric endpoints and the host range
must be no longer than the container range. -/
def entryRangeSafe (e : String × String) : Bool :=
  if goContains (splitHost e.2).2 '-' then
    match goSplit (splitHost e.2).2 '-', goSplit (splitProto e.1).1 '-' with
    | h0 :: h1 :: _, c0 :: c1 :: _ =>
      match atoi h0, atoi h1, atoi c0, atoi c1 with
      | some a, some b, some c, some d => decide (rangeLen a b ≤ rangeLen c d)
      | _, _, _, _ => false
    | _, _ => false
  else true

/-- splits a file content or command string on a single-character
separator, exactly as Go `strings.Split`. -/
def splitLines (content : String) : List String := goSplit content '\n'

/-- the fields of a `zen_targets.Target` that the embedded functions
read.  `envVarsList` stands for the host-provided
`target.GetEnvironmentVariablesList()` (the target/OS-level environment
variables); `srcsEnvs` is `target.Srcs["_envs"]`; `labels` is
`target.Labels`; `cwd` is `target.Cwd`.  The host library that builds
targets is external to this repository, so these are abstract inputs. -/
structure CTarget where
  envVarsList : List String
  srcsEnvs : List String
  labels : List String
  cwd : String
deriving Repr, DecidableEq

/-- a file system oracle standing for `ioutil.ReadFile`: path to file
contents or a read error. -/
abbrev FileSys := String → Except String String

/-- reads a list of files through the oracle, collecting their contents
in order and stopping at the first read error. -/
def readAll (fs : FileSys) : List String → Except String (List String)
  | [] => .ok []
  | f :: rest =>
    match fs f with
    | .error e => .error e
    | .ok content =>
      match readAll fs rest with
      | .error e => .error e
      | .ok cs => .ok (content :: cs)

/-- an interpolation oracle standing for the external
`target.Interpolate`. -/
abbrev Interp := String → Except String String

namespace Rev0

/-- loop of the unnamed-revision `GetContainerEnv` (lines 261–268) over
the `_envs` source files, appending the newline-split contents of each
file to the accumulator. -/
def envFilesLoop (fs : FileSys) : List String → List String →
    Except String (List String)
  | [], env => .ok env
  | f :: rest, env =>
    match fs f with
    | .error e => .error e
    | .ok content => envFilesLoop fs rest (env ++ splitLines content)

/-- embedding of `GetContainerEnv` from the unnamed revision (lines
258–271): starts from `target.GetEnvironmentVariablesList()` and
appends the newline-split contents of every file in
`target.Srcs["_envs"]`, in order, with no filtering, quoting or
escaping. -/
def GetContainerEnv (fs : FileSys) (target : CTarget) :
    Except String (List String) :=
  envFilesLoop fs target.srcsEnvs target.envVarsList

end Rev0

/-- models Go `filepath.Join` for a clean directory joined with a clean
relative path, where it is slash concatenation (the only shape this
package joins). -/
def filepathJoin (dir file : String) : String := dir ++ "/" ++ file

namespace Rev1

/-- per-line loop of the container.go `GetContainerEnv` over the lines
of an `env_file=` label's file (lines 288–297): empty lines are
skipped, other lines are interpolated (an interpolation failure aborts
with a wrapped error). -/
def envLinesLoop (interp : Interp) : List String → List String →
    Except String (List String)
  | [], env => .ok env
  | e :: rest, env =>
    if e.length = 0 then envLinesLoop interp rest env
    else
      match interp e with
      | .error err => .error ("interpolating env " ++ e ++ ": " ++ err)
      | .ok ie => envLinesLoop interp rest (env ++ [ie])

/-- label loop of the container.go `GetContainerEnv` (lines 275–300):
`container_env=` labels are interpolated and appended;
`env_file=` labels are read from `filepath.Join(target.Cwd, path)` and
their non-empty lines interpolated and appended; other labels are
ignored. -/
def envLabelsLoop (fs : FileSys) (interp : Interp) (cwd : String) :
    List String → List String → Except String (List String)
  | [], env => .ok env
  | label :: rest, env =>
    if label.startsWith "container_env=" then
      match interp (label.drop "container_env=".length) with
      | .error err => .error ("interpolating label " ++ label ++ ": " ++ err)
      | .ok il => envLabelsLoop fs interp cwd rest (env ++ [il])
    else if label.startsWith "env_file=" then
      match fs (filepathJoin cwd (label.drop "env_file=".length)) with
      | .error e => .error e
      | .ok content =>
        match envLinesLoop interp (splitLines content) env with
        | .error e => .error e
        | .ok env' => envLabelsLoop fs interp cwd rest env'
    else envLabelsLoop fs interp cwd rest env

/-- embedding of `GetContainerEnv` from container.go (lines 272–303):
assembles the environment from the target's `container_env=` and
`env_file=` labels. -/
def GetContainerEnv (fs : FileSys) (interp : Interp) (target : CTarget) :
    Except String (List String) :=
  envLabelsLoop fs interp target.cwd target.labels []

end Rev1

/-- models `mount.Mount` with the fields this package sets (the type is
always `mount.TypeBind`). -/
structure Mount where
  Source : String
  Target : String
deriving Repr, DecidableEq

/-- models `container.Config` with the fields this package sets; a Go
nil slice is the empty list. -/
structure ContainerCfg where
  Image : String
  Env : List String
  Cmd : List String
  Entrypoint : List String
deriving Repr, DecidableEq

/-- models `container.HostConfig` with the fields this package sets
(`Resources.Memory` and `Resources.NanoCPUs` flattened; Go zero value
is 0). -/
structure HostCfg where
  PortBindings : PortMap
  Mounts : List Mount
  Memory : Int
  NanoCPUs : Int
deriving Repr, DecidableEq

/-- one Docker Engine API call issued by a deploy script. -/
inductive ApiCall where
  | imagePull (image : String)
  | containerInspect (name : String)
  | containerCreate (cfg : ContainerCfg) (host : HostCfg) (name : String)
  | containerStart (id : String)
  | containerWait (id : String)
deriving Repr, DecidableEq

/-- true exactly on a `containerWait` call. -/
def isWaitCall : ApiCall → Bool
  | .containerWait _ => true
  | _ => false

/-- a container known to the modelled Docker engine. -/
structure DContainer where
  name : String
  id : String
  running : Bool
deriving Repr, DecidableEq

/-- operational model of the Docker Engine at the granularity this
package observes: the set of pulled images and the containers keyed by
name.  Pulling an already-present image and inspecting are read-only;
creating appends a container with a fresh id; starting marks it
running. -/
structure DockerState where
  images : List String
  containers : List DContainer
  nextId : Nat
deriving Repr, DecidableEq

/-- engine model of `ImagePull`: records the image; pulling an image
that is already present leaves the state unchanged. -/
def pullImage (s : DockerState) (img : String) : DockerState :=
  if img ∈ s.images then s else { s with images := s.images ++ [img] }

/-- engine model of `ContainerInspect` succeeding: a container with the
given name exists. -/
def inspectOk (s : DockerState) (name : String) : Bool :=
  s.containers.any (fun c => c.name = name)

/-- engine model of `ContainerCreate`: fails on a name conflict,
otherwise appends a stopped container under a fresh id and returns the
id. -/
def createContainer (s : DockerState) (name : String) :
    DockerState × Except String String :=
  if inspectOk s name then
    (s, .error ("Conflict. The container name " ++ name ++ " is already in use"))
  else
    let id := "c" ++ natStr s.nextId
    ({ s with containers := s.containers ++ [⟨name, id, false⟩],
              nextId := s.nextId + 1 },
     .ok id)

/-- engine model of `ContainerStart`: marks the container with the
given id running; fails when no such container exists. -/
def startContainer (s : DockerState) (id : String) :
    DockerState × Except String Unit :=
  if s.containers.any (fun c => c.id = id) then
    ({ s with containers :=
        s.containers.map (fun c => if c.id = id then { c with running := true } else c) },
     .ok ())
  else (s, .error ("No such container: " ++ id))

/-- engine model of `ContainerWait` with condition not-running: a
read-only observation that eventually yields a status. -/
def waitContainer (s : DockerState) (_id : String) :
    DockerState × Except String Unit :=
  (s, .ok ())

/-- result of running a deploy script against the engine model: the
trace of API calls issued, the final engine state, and the script's
outcome. -/
abbrev DeployResult := List ApiCall × DockerState × GoOutcome Unit

namespace Rev1

/-- configuration fields of the container.go `DockerContainerConfig`
that its deploy `Run` closure reads (lines 21–41; the zen metadata
fields — name, description, labels, deps, env declarations — only feed
the external host library and are omitted).  Go maps are modelled as
entry lists in iteration order. -/
structure DockerContainerConfig where
  Memory : Option Int
  Cpu : Option Int
  ContainerName : String
  Image : String
  Command : String
  Entrypoint : String
  Volumes : List (String × String)
  Ports : List (String × String)
deriving Repr, DecidableEq

/-- volume interpolation loop of the container.go deploy `Run` (lines
156–166): interpolates each volume key and collects bind mounts; a
failure carries the offending key. -/
def volumesLoop (interp : Interp) :
    List (String × String) → List Mount → Except (String × String) (List Mount)
  | [], acc => .ok acc
  | (k, v) :: rest, acc =>
    match interp k with
    | .error e => .error (k, e)
    | .ok ik => volumesLoop interp rest (acc ++ [⟨ik, v⟩])

/-- embedding of the container.go deploy `Run` closure (lines 95–184),
run against the engine model: pull the image, inspect the container
name and stop with success when it exists, otherwise assemble the
environment, port bindings and mounts, then create and start the
container.  This revision issues no `ContainerWait`. -/
def deployRun (fs : FileSys) (interp : Interp) (dcc : DockerContainerConfig)
    (target : CTarget) (s0 : DockerState) : DeployResult :=
  let s1 := pullImage s0 dcc.Image
  let tr := [ApiCall.imagePull dcc.Image, ApiCall.containerInspect dcc.ContainerName]
  if inspectOk s1 dcc.ContainerName then (tr, s1, .ok ())
  else
    match GetContainerEnv fs interp target with
    | .error e => (tr, s1, .errRet none ("computing env for container: " ++ e))
    | .ok env =>
      let config : ContainerCfg :=
        { Image := dcc.Image
          Env := env
          Cmd := if dcc.Command ≠ "" then goSplit dcc.Command ' ' else []
          Entrypoint := if dcc.Entrypoint ≠ "" then goSplit dcc.Entrypoint ' ' else [] }
      match GetPortBindings dcc.Ports with
      | .crash e => (tr, s1, .crash e)
      | .errRet _ e => (tr, s1, .errRet none ("computing port binds: " ++ e))
      | .ok ports =>
        match volumesLoop interp dcc.Volumes [] with
        | .error ke =>
          (tr, s1, .errRet none ("interpolating volume " ++ ke.1 ++ ": " ++ ke.2))
        | .ok mounts =>
          let host : HostCfg :=
            { PortBindings := ports
              Mounts := mounts
              Memory := (match dcc.Memory with | some mem => mem * 1000000 | none => 0)
              NanoCPUs := (match dcc.Cpu with | some cpu => cpu * 1000000000 | none => 0) }
          let tr2 := tr ++ [ApiCall.containerCreate config host dcc.ContainerName]
          match createContainer s1 dcc.ContainerName with
          | (s2, .error e) => (tr2, s2, .errRet none ("creating container: " ++ e))
          | (s2, .ok id) =>
            let tr3 := tr2 ++ [ApiCall.containerStart id]
            match startContainer s2 id with
            | (s3, .error e) => (tr3, s3, .errRet none ("starting container: " ++ e))
            | (s3, .ok _) => (tr3, s3, .ok ())

end Rev1

namespace Rev0

/-- configuration fields of the unnamed-revision
`DockerContainerConfig` that its deploy `Run` closure reads (lines
19–29; this revision has no memory/cpu fields). -/
structure DockerContainerConfig where
  ContainerName : String
  Image : String
  Command : String
  Entrypoint : String
  Volumes : List (String × String)
  Ports : List (String × String)
deriving Repr, DecidableEq

/-- embedding of the unnamed-revision deploy `Run` closure (lines
73–164), run against the engine model: the image pull is commented out
in this revision, so the run starts at the inspect; when the container
is missing it assembles the environment, port bindings and
uninterpolated bind mounts, creates and starts the container, and then
waits on it. -/
def deployRun (fs : FileSys) (dcc : DockerContainerConfig)
    (target : CTarget) (s0 : DockerState) : DeployResult :=
  let tr := [ApiCall.containerInspect dcc.ContainerName]
  if inspectOk s0 dcc.ContainerName then (tr, s0, .ok ())
  else
    match GetContainerEnv fs target with
    | .error e => (tr, s0, .errRet none ("computing env for container: " ++ e))
    | .ok env =>
      let config : ContainerCfg :=
        { Image := dcc.Image
          Env := env
          Cmd := if dcc.Command ≠ "" then goSplit dcc.Command ' ' else []
          Entrypoint := if dcc.Entrypoint ≠ "" then goSplit dcc.Entrypoint ' ' else [] }
      match GetPortBindings dcc.Ports with
      | .crash e => (tr, s0, .crash e)
      | .errRet _ e => (tr, s0, .errRet none ("computing port binds: " ++ e))
      | .ok ports =>
        let host : HostCfg :=
          { PortBindings := ports
            Mounts := dcc.Volumes.map (fun kv => ⟨kv.1, kv.2⟩)
            Memory := 0
            NanoCPUs := 0 }
        let tr2 := tr ++ [ApiCall.containerCreate config host dcc.ContainerName]
        match createContainer s0 dcc.ContainerName with
        | (s2, .error e) => (tr2, s2, .errRet none ("creating container: " ++ e))
        | (s2, .ok id) =>
          let tr3 := tr2 ++ [ApiCall.containerStart id]
          match startContainer s2 id with
          | (s3, .error e) => (tr3, s3, .errRet none ("starting container: " ++ e))
          | (s3, .ok _) =>
            let tr4 := tr3 ++ [ApiCall.containerWait id]
            match waitContainer s3 id with
            | (s4, .error e) =>
              (tr4, s4, .errRet none ("waiting for container to start: " ++ e))
            | (s4, .ok _) => (tr4, s4, .ok ())

end Rev0

namespace Image

/-- one `target.Exec` invocation: the argument vector and the status
label passed alongside it. -/
structure ExecCall where
  args : List String
  label : String
deriving Repr, DecidableEq

/-- an execution oracle for `target.Exec`: `none` is success, `some e`
is the error the call failed with. -/
abbrev Exec := List String → String → Option String

/-- configuration fields of `DockerImageConfig` (image.go lines
192–215) that the build, deploy and load `Run` closures read; the zen
metadata fields and the toolchain overrides (which only feed the
external host's target construction) are omitted.  Go maps are entry
lists in iteration order. -/
structure DockerImageConfig where
  BuildArgs : List (String × String)
  Image : String
  Context : Option String
  Registry : Option String
  Tags : List String
deriving Repr, DecidableEq

/-- the fields of the host-built image target that the script closures
read: `Cwd`, the resolved `Tools` map (a Go map read, empty string
when absent), `Srcs["dockerfile"][0]`, and the `Env` map. -/
structure ITarget where
  Cwd : String
  tools : String → String
  dockerfile0 : String
  env : String → Option String

/-- tag defaulting in `GetTargets` (image.go lines 244–246): an empty
tag list becomes `["latest"]` before any script closure is built. -/
def withTagDefault (dic : DockerImageConfig) : DockerImageConfig :=
  if dic.Tags = [] then { dic with Tags := ["latest"] } else dic

/-- the `--build-arg` loop of the build `Run` (image.go lines 274–276):
two arguments per interpolated build-arg pair. -/
def buildArgsFlatten : List (String × String) → List String
  | [] => []
  | kv :: rest => ["--build-arg", kv.1 ++ "=" ++ kv.2] ++ buildArgsFlatten rest

/-- embedding of the build `Run` closure (image.go lines 252–280).
`interpMap` stands for the external `utils.InterpolateMap` applied to
the build args with the target environment; the closure assembles the
`buildx` argument vector and hands it to `target.Exec`. -/
def buildRun
    (interpMap : List (String × String) → Except String (List (String × String)))
    (dic : DockerImageConfig) (t : ITarget) : Except String ExecCall :=
  let context :=
    match dic.Context with
    | some c => filepathJoin t.Cwd c
    | none => t.Cwd
  let args := [t.tools "buildx", "build", context,
    "--output", "type=docker,dest=" ++ t.Cwd ++ "/image.tar",
    "--file", t.dockerfile0]
  match interpMap dic.BuildArgs with
  | .error e => .error ("interpolating build args: " ++ e)
  | .ok bas => .ok ⟨args ++ buildArgsFlatten bas, "docker build"⟩

/-- registry resolution of the deploy `Run` (image.go lines 288–294):
the configured registry, else the `DOCKER_REGISTRY` target environment
variable, else an error. -/
def resolveRegistry (dic : DockerImageConfig) (t : ITarget) :
    Except String String :=
  match dic.Registry with
  | some r => .ok r
  | none =>
    match t.env "DOCKER_REGISTRY" with
    | none => .error "need to provide a docker registry or a default via DOCKER_REGISTRY env"
    | some val => .ok val

/-- the full image reference pushed or tagged:
`<registry>/<image>:<tag>` (image.go lines 296–299). -/
def tagRef (reg image tg : String) : String :=
  reg ++ "/" ++ image ++ ":" ++ tg

/-- the `crane push` call of the deploy `Run` (image.go line 300). -/
def pushCall (crane cwd ref0 : String) : ExecCall :=
  ⟨[crane, "push", filepathJoin cwd "image.tar", ref0], "pushing image"⟩

/-- one `crane tag` call of the deploy `Run` (image.go line 307). -/
def tagCall (crane ref0 ref : String) : ExecCall :=
  ⟨[crane, "tag", ref0, ref], "tagging image"⟩

/-- applies the execution oracle to one call. -/
def runs (exec : Exec) (c : ExecCall) : Option String :=
  exec c.args c.label

/-- the `crane tag` loop of the deploy `Run` (image.go lines 306–311):
tags the pushed first reference with each remaining tag, stopping at
the first failing call. -/
def tagLoop (exec : Exec) (crane t0 : String) :
    List String → List ExecCall × GoOutcome Unit
  | [] => ([], .ok ())
  | tg :: rest =>
    let cmd := [crane, "tag", t0, tg]
    match exec cmd "tagging image" with
    | some e => ([⟨cmd, "tagging image"⟩], .errRet none e)
    | none =>
      let r := tagLoop exec crane t0 rest
      (⟨cmd, "tagging image"⟩ :: r.1, r.2)

/-- embedding of the deploy (push) `Run` closure (image.go lines
282–316): resolves the registry, builds the full tag references, runs
one `crane push` of `<cwd>/image.tar` to the first reference and then
one `crane tag` per remaining reference, aborting on the first
failure.  The result carries the trace of `target.Exec` calls. -/
def deployRun (exec : Exec) (dic : DockerImageConfig) (t : ITarget) :
    List ExecCall × GoOutcome Unit :=
  match resolveRegistry dic t with
  | .error e => ([], .errRet none e)
  | .ok reg =>
    let tags := dic.Tags.map (fun tg => reg ++ "/" ++ dic.Image ++ ":" ++ tg)
    match tags with
    | [] => ([], .crash "index out of range")
    | t0 :: trest =>
      let kraneCmd := [t.tools "crane", "push", filepathJoin t.Cwd "image.tar", t0]
      match exec kraneCmd "pushing image" with
      | some e => ([⟨kraneCmd, "pushing image"⟩], .errRet none e)
      | none =>
        let r := tagLoop exec (t.tools "crane") t0 trest
        (⟨kraneCmd, "pushing image"⟩ :: r.1, r.2)

/-- embedding of the load `Run` closure (image.go lines 318–336): the
tag loop dereferences `dic.Registry` without a nil guard, so with a nil
registry and a non-empty tag list the first loop iteration is a nil
pointer dereference; with an empty tag list the loop never runs and the
later `tags[0]` read is an index-out-of-range panic. -/
def loadRun (exec : Exec) (dic : DockerImageConfig) (t : ITarget) :
    List ExecCall × GoOutcome Unit :=
  match dic.Tags with
  | [] => ([], .crash "index out of range")
  | tg0 :: _ =>
    match dic.Registry with
    | none => ([], .crash "invalid memory address or nil pointer dereference")
    | some reg =>
      let t0 := reg ++ "/" ++ dic.Image ++ ":" ++ tg0
      let loadCmd := [t.tools "buildx", "load", filepathJoin t.Cwd "image.tar", t0]
      match exec loadCmd "loading image" with
      | some e => ([⟨loadCmd, "loading image"⟩], .errRet none e)
      | none => ([⟨loadCmd, "loading image"⟩], .ok ())

end Image

/-! Basic lemmas about the Go string and numeral primitives. -/

theorem digitVal_digitChar {m : Nat} (h : m < 10) : digitVal (digitChar m) = some m := by
  interval_cases m <;> decide

theorem digitChar_ne_dash {m : Nat} (h : m < 10) : digitChar m ≠ '-' := by
  interval_cases m <;> decide

theorem parseDigitsAux_append (l1 l2 : List Char) (acc : Nat) :
    parseDigitsAux (l1 ++ l2) acc =
      match parseDigitsAux l1 acc with
      | none => none
      | some a => parseDigitsAux l2 a := by
  induction l1 generalizing acc with
  | nil => rfl
  | cons c rest ih =>
    simp only [List.cons_append, parseDigitsAux]
    cases digitVal c with
    | none => rfl
    | some d => exact ih _

theorem natToDigitsAux_parse :
    ∀ (f n acc : Nat), n < f →
      parseDigitsAux (natToDigitsAux f n) acc =
        some (acc * 10 ^ (natToDigitsAux f n).length + n) := by
  intro f
  induction f with
  | zero => intro n acc h; omega
  | succ f ih =>
    intro n acc h
    by_cases h10 : n < 10
    · simp only [natToDigitsAux, if_pos h10, parseDigitsAux, digitVal_digitChar h10]
      rw [List.length_cons, List.length_nil, pow_one]
    · simp only [natToDigitsAux, if_neg h10]
      rw [parseDigitsAux_append]
      have hlt : n / 10 < f := by omega
      rw [ih (n / 10) acc hlt]
      have hmod : n % 10 < 10 := Nat.mod_lt n (by norm_num)
      simp only [parseDigitsAux, digitVal_digitChar hmod]
      rw [List.length_append, List.length_cons, List.length_nil, pow_succ, ← mul_assoc]
      congr 1
      generalize acc * 10 ^ (natToDigitsAux f (n / 10)).length = X
      omega

theorem natToDigits_ne_nil (n : Nat) : natToDigits n ≠ [] := by
  simp only [natToDigits, natToDigitsAux]
  split <;> simp

theorem parseDigits_natToDigits (n : Nat) : parseDigits (natToDigits n) = some n := by
  unfold parseDigits
  rw [if_neg (natToDigits_ne_nil n)]
  have := natToDigitsAux_parse (n + 1) n 0 (Nat.lt_succ_self n)
  simp only [natToDigits]
  rw [this]
  simp

theorem natStr_data (n : Nat) : (natStr n).data = natToDigits n := rfl

theorem parseUint16_natStr {n : Nat} (h : n < 65536) : parseUint16 (natStr n) = some n := by
  unfold parseUint16
  rw [natStr_data, parseDigits_natToDigits]
  simp [h]

theorem natStr_inj {a b : Nat} (h : natStr a = natStr b) : a = b := by
  have hd : natToDigits a = natToDigits b := congrArg String.data h
  have := parseDigits_natToDigits a
  rw [hd, parseDigits_natToDigits b] at this
  exact (Option.some.inj this).symm

theorem natToDigitsAux_mem {f n : Nat} {c : Char} (h : c ∈ natToDigitsAux f n) :
    ∃ m, m < 10 ∧ c = digitChar m := by
  induction f generalizing n with
  | zero => simp [natToDigitsAux] at h
  | succ f ih =>
    simp only [natToDigitsAux] at h
    by_cases h10 : n < 10
    · rw [if_pos h10] at h
      simp only [List.mem_singleton] at h
      exact ⟨n, h10, h⟩
    · rw [if_neg h10] at h
      rcases List.mem_append.mp h with hl | hr
      · exact ih hl
      · simp only [List.mem_singleton] at hr
        exact ⟨n % 10, Nat.mod_lt n (by norm_num), hr⟩

theorem natStr_no_dash (n : Nat) : goContains (natStr n) '-' = false := by
  simp only [goContains, decide_eq_false_iff_not]
  intro hmem
  obtain ⟨m, hm, hc⟩ := natToDigitsAux_mem
    (show '-' ∈ natToDigitsAux (n + 1) n from hmem)
  exact digitChar_ne_dash hm hc.symm

theorem natStr_ne_empty (n : Nat) : natStr n ≠ "" := by
  intro h
  exact natToDigits_ne_nil n (congrArg String.data h)

/-! Lemmas about single-character splitting. -/

theorem splitChar_ne_nil (sep : Char) (l : List Char) : splitChar sep l ≠ [] := by
  cases l with
  | nil => simp [splitChar]
  | cons c rest =>
    simp only [splitChar]
    split
    · simp
    · split <;> simp

theorem splitChar_not_contains {sep : Char} {l : List Char} (h : sep ∉ l) :
    splitChar sep l = [l] := by
  induction l with
  | nil => rfl
  | cons c rest ih =>
    have hc : ¬(c = sep) := fun hh => h (hh ▸ List.mem_cons_self c rest)
    have hrest : sep ∉ rest := fun hm => h (List.mem_cons_of_mem c hm)
    simp only [splitChar, if_neg hc, ih hrest]

theorem splitChar_contains {sep : Char} {l : List Char} (h : sep ∈ l) :
    ∃ a b t, splitChar sep l = a :: b :: t := by
  induction l with
  | nil => cases h
  | cons c rest ih =>
    simp only [splitChar]
    by_cases hc : c = sep
    · rw [if_pos hc]
      obtain ⟨x, xs, hr⟩ : ∃ x xs, splitChar sep rest = x :: xs := by
        cases hsp : splitChar sep rest with
        | nil => exact absurd hsp (splitChar_ne_nil sep rest)
        | cons x xs => exact ⟨x, xs, rfl⟩
      rw [hr]
      exact ⟨[], x, xs, rfl⟩
    · rw [if_neg hc]
      have hrest : sep ∈ rest := by
        rcases List.mem_cons.mp h with heq | hm
        · exact absurd heq.symm hc
        · exact hm
      obtain ⟨a, b, t, hsp⟩ := ih hrest
      rw [hsp]
      exact ⟨c :: a, b, t, rfl⟩

theorem splitChar_sub {sep : Char} {c : Char} :
    ∀ {l p : List Char}, p ∈ splitChar sep l → c ∈ p → c ∈ l := by
  intro l
  induction l with
  | nil =>
    intro p hp hc
    simp [splitChar] at hp
    subst hp
    cases hc
  | cons x rest ih =>
    intro p hp hc
    simp only [splitChar] at hp
    by_cases hx : x = sep
    · rw [if_pos hx] at hp
      rcases List.mem_cons.mp hp with heq | hm
      · subst heq; cases hc
      · exact List.mem_cons_of_mem x (ih hm hc)
    · rw [if_neg hx] at hp
      cases hsp : splitChar sep rest with
      | nil => exact absurd hsp (splitChar_ne_nil sep rest)
      | cons q qs =>
        rw [hsp] at hp
        rcases List.mem_cons.mp hp with heq | hm
        · subst heq
          rcases List.mem_cons.mp hc with hcx | hcq
          · exact hcx ▸ List.mem_cons_self x rest
          · exact List.mem_cons_of_mem x (ih (hsp ▸ List.mem_cons_self q qs) hcq)
        · exact List.mem_cons_of_mem x (ih (hsp ▸ List.mem_cons_of_mem q hm) hc)

theorem goContains_false_split {s : String} {sep : Char} (h : goContains s sep = false) :
    goSplit s sep = [s] := by
  have hmem : sep ∉ s.data := by
    simpa [goContains] using h
  simp only [goSplit, splitChar_not_contains hmem, List.map_cons, List.map_nil]

theorem goContains_true_split {s : String} {sep : Char} (h : goContains s sep = true) :
    ∃ a b t, goSplit s sep = a :: b :: t := by
  have hmem : sep ∈ s.data := by
    simpa [goContains] using h
  obtain ⟨a, b, t, hsp⟩ := splitChar_contains hmem
  exact ⟨⟨a⟩, ⟨b⟩, t.map (fun l => ⟨l⟩), by simp [goSplit, hsp]⟩

theorem goSplit_part_no_char {s : String} {sep c : Char} (hs : goContains s c = false)
    {p : String} (hp : p ∈ goSplit s sep) : goContains p c = false := by
  simp only [goContains, decide_eq_false_iff_not] at hs ⊢
  intro hmem
  simp only [goSplit, List.mem_map] at hp
  obtain ⟨l, hl, hpl⟩ := hp
  subst hpl
  exact hs (splitChar_sub hl hmem)

/-! Lemmas about the port-binding machinery. -/

theorem mapSet_fresh {m : PortMap} {k : String} (h : ∀ p ∈ m, p.1 ≠ k)
    (v : List PortBinding) : mapSet m k v = m ++ [(k, v)] := by
  induction m with
  | nil => rfl
  | cons p rest ih =>
    cases p with
    | mk k' v' =>
      simp only [mapSet]
      rw [if_neg (h (k', v') (List.mem_cons_self _ _))]
      rw [ih (fun q hq => h q (List.mem_cons_of_mem _ hq))]
      simp

theorem upto_length (a b : Int) : (upto a b).length = rangeLen a b := by
  rw [upto, List.length_map, List.length_range]

theorem bindLoop_no_crash {proto ip : String} :
    ∀ {hl cl : List String} {m : PortMap}, hl.length ≤ cl.length →
      isCrash (bindLoop proto ip hl cl m) = false := by
  intro hl
  induction hl with
  | nil => intro cl m _; rfl
  | cons h hrest ih =>
    intro cl m hlen
    cases cl with
    | nil => simp at hlen
    | cons c crest =>
      cases hnp : NewPort proto c with
      | error e => simp [bindLoop, hnp, isCrash]
      | ok port =>
        simp only [bindLoop, hnp]
        exact ih (by simp only [List.length_cons] at hlen; omega)

theorem bindLoop_crash_indep {proto ip : String} :
    ∀ {hl cl : List String} (m m' : PortMap),
      isCrash (bindLoop proto ip hl cl m) = isCrash (bindLoop proto ip hl cl m') := by
  intro hl
  induction hl with
  | nil => intro cl m m'; rfl
  | cons h hrest ih =>
    intro cl m m'
    cases cl with
    | nil => rfl
    | cons c crest =>
      cases hnp : NewPort proto c with
      | error e => simp [bindLoop, hnp]
      | ok port =>
        simp only [bindLoop, hnp]
        exact ih _ _

theorem processEntry_crash_indep (m m' : PortMap) (k v : String) :
    isCrash (processEntry m k v) = isCrash (processEntry m' k v) := by
  simp only [processEntry]
  split
  · rfl
  · cases hER : expandRanges (splitHost v).2 (splitProto k).1 with
    | crash e => rfl
    | errRet mm e => rfl
    | ok pr =>
      cases pr with
      | mk hostRange containerRange => exact bindLoop_crash_indep _ _

theorem processEntry_no_crash {m : PortMap} {k v : String}
    (hsafe : entryRangeSafe (k, v) = true) : isCrash (processEntry m k v) = false := by
  simp only [processEntry]
  split
  · rfl
  · by_cases hd : goContains (splitHost v).2 '-'
    · simp only [entryRangeSafe, if_pos hd] at hsafe
      cases hh : goSplit (splitHost v).2 '-' with
      | nil => rw [hh] at hsafe; simp at hsafe
      | cons h0 htl =>
        cases htl with
        | nil => rw [hh] at hsafe; simp at hsafe
        | cons h1 ht =>
          cases hcc : goSplit (splitProto k).1 '-' with
          | nil => rw [hh, hcc] at hsafe; simp at hsafe
          | cons c0 ctl =>
            cases ctl with
            | nil => rw [hh, hcc] at hsafe; simp at hsafe
            | cons c1 ct =>
              rw [hh, hcc] at hsafe
              have hsafe' :
                  (match atoi h0, atoi h1, atoi c0, atoi c1 with
                    | some a, some b, some c, some d =>
                      decide (rangeLen a b ≤ rangeLen c d)
                    | _, _, _, _ => false) = true := hsafe
              cases ha : atoi h0 with
              | none => rw [ha] at hsafe'; simp at hsafe'
              | some a =>
                cases hb : atoi h1 with
                | none => rw [ha, hb] at hsafe'; simp at hsafe'
                | some b =>
                  cases hc : atoi c0 with
                  | none => rw [ha, hb, hc] at hsafe'; simp at hsafe'
                  | some c =>
                    cases hdd : atoi c1 with
                    | none => rw [ha, hb, hc, hdd] at hsafe'; simp at hsafe'
                    | some d =>
                      rw [ha, hb, hc, hdd] at hsafe'
                      have hle : rangeLen a b ≤ rangeLen c d := by
                        have : decide (rangeLen a b ≤ rangeLen c d) = true := hsafe'
                        exact of_decide_eq_true this
                      simp only [expandRanges, if_pos hd, hh, hcc, ha, hb, hdd, hc]
                      apply bindLoop_no_crash
                      simp only [List.length_map, upto_length]
                      exact hle
    · simp only [expandRanges, if_neg hd]
      exact bindLoop_no_crash (by simp)

theorem getPortBindingsAux_no_crash :
    ∀ (ports : List (String × String)) (m : PortMap),
      (∀ e ∈ ports, entryRangeSafe e = true) →
      isCrash (GetPortBindingsAux m ports) = false := by
  intro ports
  induction ports with
  | nil => intro m _; rfl
  | cons e rest ih =>
    intro m h
    cases e with
    | mk k v =>
      cases hpe : processEntry m k v with
      | ok m' =>
        simp only [GetPortBindingsAux, hpe]
        exact ih m' (fun x hx => h x (List.mem_cons_of_mem _ hx))
      | errRet mm er => simp [GetPortBindingsAux, hpe, isCrash]
      | crash er =>
        have hsafe := h (k, v) (List.mem_cons_self _ _)
        have hnc := @processEntry_no_crash m k v hsafe
        rw [hpe] at hnc
        simp [isCrash] at hnc

theorem getPortBindingsAux_mismatch :
    ∀ (ports : List (String × String)) (m : PortMap) (k v : String),
      (k, v) ∈ ports →
      goContains k '-' ≠ goContains v '-' →
      (∀ e ∈ ports, isCrash (processEntry [] e.1 e.2) = false) →
      isErr (GetPortBindingsAux m ports) = true := by
  intro ports
  induction ports with
  | nil => intro m k v hmem; cases hmem
  | cons e rest ih =>
    intro m k v hmem hmis hcf
    cases e with
    | mk k' v' =>
      rcases List.mem_cons.mp hmem with heq | hm
      · have hk : k' = k := (congrArg Prod.fst heq).symm
        have hv : v' = v := (congrArg Prod.snd heq).symm
        subst hk
        subst hv
        simp only [GetPortBindingsAux, processEntry, if_pos hmis]
        rfl
      · cases hpe : processEntry m k' v' with
        | ok m' =>
          simp only [GetPortBindingsAux, hpe]
          exact ih m' k v hm hmis (fun x hx => hcf x (List.mem_cons_of_mem _ hx))
        | errRet mm er => simp [GetPortBindingsAux, hpe, isErr]
        | crash er =>
          have h0 := hcf (k', v') (List.mem_cons_self _ _)
          rw [← processEntry_crash_indep m [] k' v', hpe] at h0
          simp [isCrash] at h0

theorem splitHost_snd_cases (value : String) :
    (splitHost value).2 = value ∨ (splitHost value).2 ∈ goSplit value ':' := by
  unfold splitHost
  by_cases hcol : goContains value ':'
  · rw [if_pos hcol]
    obtain ⟨a, b, t, hsp⟩ := goContains_true_split hcol
    rw [hsp]
    right
    show b ∈ a :: b :: t
    exact List.mem_cons_of_mem a (List.mem_cons_self b t)
  · rw [if_neg hcol]
    left
    rfl

theorem splitProto_fst_cases (key : String) :
    (splitProto key).1 = key ∨ (splitProto key).1 ∈ goSplit key '/' := by
  unfold splitProto
  by_cases hsl : goContains key '/'
  · rw [if_pos hsl]
    obtain ⟨a, b, t, hsp⟩ := goContains_true_split hsl
    rw [hsp]
    right
    show a ∈ a :: b :: t
    exact List.mem_cons_self a (b :: t)
  · rw [if_neg hsl]
    left
    rfl

theorem splitHost_snd_no_dash {value : String} (hv : goContains value '-' = false) :
    goContains (splitHost value).2 '-' = false := by
  rcases splitHost_snd_cases value with heq | hmem
  · rw [heq]; exact hv
  · exact goSplit_part_no_char hv hmem

theorem splitProto_fst_no_dash {key : String} (hk : goContains key '-' = false) :
    goContains (splitProto key).1 '-' = false := by
  rcases splitProto_fst_cases key with heq | hmem
  · rw [heq]; exact hk
  · exact goSplit_part_no_char hk hmem

theorem parseUint16_ne_empty {s : String} {c : Nat} (h : parseUint16 s = some c) :
    s ≠ "" := by
  intro hs
  subst hs
  simp [parseUint16, parseDigits] at h

/-- C9: `GetPortBindings` cannot panic when every dash-delimited range
has numeric endpoints on both sides and the host range is no longer
than the container range; outside that precondition a non-numeric range
endpoint reaches `panic("Invalid format")` and a host range strictly
longer than the container range reaches a slice index-out-of-range
panic in the final binding loop. -/
theorem getPortBindings_totality :
    (∀ ports : List (String × String),
        (∀ e ∈ ports, entryRangeSafe e = true) →
        isCrash (GetPortBindings ports) = false) ∧
    GetPortBindings [("80-a", "90-91")] = .crash "Invalid format" ∧
    GetPortBindings [("80-81", "8000-8005")] = .crash "index out of range" := by
  refine ⟨?_, by decide, by decide⟩
  intro ports h
  exact getPortBindingsAux_no_crash ports [] h

theorem getPortBindings_totality_witness :
    (∀ e ∈ [(("80-81" : String), ("9080-9081" : String))], entryRangeSafe e = true) ∧
    isCrash (GetPortBindings [("80-81", "9080-9081")]) = false :=
  ⟨by decide, getPortBindings_totality.1 _ (by decide)⟩

/-- C1 (counterexample): a ports map that contains an entry whose key
has no dash while its value has one (so the claim promises a validation
error) can still panic instead of returning an error, because another
entry with a malformed dash range is processed first. -/
theorem getPortBindings_mismatch_cx :
    goContains "80" '-' ≠ goContains "90-91" '-' ∧
    GetPortBindings [("a-b", "c-d"), ("80", "90-91")] = .crash "Invalid format" := by
  constructor
  · decide
  · decide

/-- C1 (amended): in a ports map in which no entry panics (no malformed
dash range), an entry whose key and value differ in dash-ness makes
`GetPortBindings` finish with an error return rather than a completed
port map; and single ports with an optional `/proto` suffix on the key
(with a numeric container port) and an optional `ip:` host prefix on
the value are accepted, binding `port/proto` to the host IP
(default `127.0.0.1`) and the raw host port string. -/
theorem getPortBindings_mismatch_amended :
    (∀ (ports : List (String × String)) (k v : String),
        (k, v) ∈ ports →
        goContains k '-' ≠ goContains v '-' →
        (∀ e ∈ ports, isCrash (processEntry [] e.1 e.2) = false) →
        isErr (GetPortBindings ports) = true) ∧
    (∀ (key value : String) (c : Nat),
        goContains key '-' = false →
        goContains value '-' = false →
        parseUint16 (splitProto key).1 = some c →
        GetPortBindings [(key, value)] =
          .ok [(natStr c ++ "/" ++ (splitProto key).2,
                [⟨(splitHost value).1, (splitHost value).2⟩])]) := by
  constructor
  · intro ports k v hmem hmis hcf
    exact getPortBindingsAux_mismatch ports [] k v hmem hmis hcf
  · intro key value c hk hv hpc
    have hmis : ¬(goContains key '-' ≠ goContains value '-') := by
      rw [hk, hv]
      simp
    have hhp : ¬(goContains (splitHost value).2 '-' = true) := by
      rw [splitHost_snd_no_dash hv]
      simp
    have hcp : goContains (splitProto key).1 '-' = false := splitProto_fst_no_dash hk
    have hne : (splitProto key).1 ≠ "" := parseUint16_ne_empty hpc
    simp only [GetPortBindings, GetPortBindingsAux, processEntry, if_neg hmis,
      expandRanges, if_neg hhp, bindLoop, NewPort, ParsePortRange, if_neg hne,
      hcp, hpc]
    simp [mapSet]

theorem natStr_key_inj {a b : Nat} {proto : String}
    (h : natStr a ++ "/" ++ proto = natStr b ++ "/" ++ proto) : a = b := by
  have hd := congrArg String.data h
  simp only [String.data_append] at hd
  have h1 := List.append_cancel_right hd
  have h2 := List.append_cancel_right h1
  exact natStr_inj (congrArg String.mk h2)

theorem newPort_natStr {proto : String} {c : Nat} (h : c < 65536) :
    NewPort proto (natStr c) = .ok (natStr c ++ "/" ++ proto) := by
  have hne : ¬(natStr c = "") := natStr_ne_empty c
  simp only [NewPort, ParsePortRange, if_neg hne, natStr_no_dash c,
    parseUint16_natStr h]
  simp

theorem range_succ_map {α : Type} (f : Nat → α) (n : Nat) :
    (List.range (n + 1)).map f = f 0 :: (List.range n).map (fun i => f (i + 1)) := by
  rw [List.range_succ_eq_map, List.map_cons, List.map_map]
  rfl

theorem bindLoop_expand {proto ip : String} :
    ∀ (n cN hN : Nat) (m : PortMap),
      (∀ i, i < n → cN + i < 65536) →
      (∀ i, i < n → ∀ p ∈ m, p.1 ≠ natStr (cN + i) ++ "/" ++ proto) →
      bindLoop proto ip ((List.range n).map (fun i => natStr (hN + i)))
        ((List.range n).map (fun i => natStr (cN + i))) m =
      .ok (m ++ (List.range n).map (fun i =>
        (natStr (cN + i) ++ "/" ++ proto,
         ([⟨ip, natStr (hN + i)⟩] : List PortBinding)))) := by
  intro n
  induction n with
  | zero =>
    intro cN hN m _ _
    simp [bindLoop]
  | succ n ih =>
    intro cN hN m hbound hfresh
    rw [range_succ_map (fun i => natStr (hN + i)) n,
        range_succ_map (fun i => natStr (cN + i)) n,
        range_succ_map (fun i =>
          (natStr (cN + i) ++ "/" ++ proto,
           ([⟨ip, natStr (hN + i)⟩] : List PortBinding))) n]
    have hb0 : cN + 0 < 65536 := hbound 0 (Nat.succ_pos n)
    simp only [bindLoop, newPort_natStr hb0]
    rw [mapSet_fresh (hfresh 0 (Nat.succ_pos n)) _]
    have hmapc : (List.range n).map (fun i => natStr (cN + (i + 1))) =
        (List.range n).map (fun i => natStr (cN + 1 + i)) := by
      apply List.map_congr_left
      intro a _
      have harith : cN + (a + 1) = cN + 1 + a := by omega
      rw [harith]
    have hmaph : (List.range n).map (fun i => natStr (hN + (i + 1))) =
        (List.range n).map (fun i => natStr (hN + 1 + i)) := by
      apply List.map_congr_left
      intro a _
      have harith : hN + (a + 1) = hN + 1 + a := by omega
      rw [harith]
    rw [hmapc, hmaph]
    have hbound' : ∀ i, i < n → cN + 1 + i < 65536 := by
      intro i hi
      have := hbound (i + 1) (by omega)
      omega
    have hfresh' : ∀ i, i < n →
        ∀ p ∈ m ++ [(natStr (cN + 0) ++ "/" ++ proto,
          ([⟨ip, natStr (hN + 0)⟩] : List PortBinding))],
        p.1 ≠ natStr (cN + 1 + i) ++ "/" ++ proto := by
      intro i hi p hp
      rcases List.mem_append.mp hp with hm | he
      · intro hcon
        apply hfresh (i + 1) (by omega) p hm
        rw [hcon]
        have harith : cN + (i + 1) = cN + 1 + i := by omega
        rw [harith]
      · simp only [List.mem_singleton] at he
        subst he
        intro hcon
        have := natStr_key_inj hcon
        omega
    rw [ih (cN + 1) (hN + 1) _ hbound' hfresh']
    congr 1
    rw [List.append_assoc]
    congr 1
    rw [List.singleton_append]
    congr 1
    apply List.map_congr_left
    intro a _
    have h1 : cN + (a + 1) = cN + 1 + a := by omega
    have h2 : hN + (a + 1) = hN + 1 + a := by omega
    rw [h1, h2]

theorem goSplit_two_contains {s : String} {sep : Char} {a b : String} {t : List String}
    (h : goSplit s sep = a :: b :: t) : goContains s sep = true := by
  cases hg : goContains s sep with
  | false =>
    rw [goContains_false_split hg] at h
    simp at h
  | true => rfl

theorem itoa_ofNat_add {a : Int} (ha : 0 ≤ a) (i : Nat) :
    itoa (a + Int.ofNat i) = natStr (a.toNat + i) := by
  rw [Int.ofNat_eq_natCast, itoa, if_neg (by omega)]
  congr 1
  omega

theorem upto_map_itoa {a : Int} (ha : 0 ≤ a) (b : Int) :
    (upto a b).map itoa =
      (List.range (rangeLen a b)).map (fun i => natStr (a.toNat + i)) := by
  rw [upto, List.map_map]
  apply List.map_congr_left
  intro i _
  exact itoa_ofNat_add ha i

/-- C2: a ports-map entry whose container side and host side are both
numeric dash ranges of equal length (within the 16-bit port space, with
optional `/proto` and `ip:` decorations) is expanded in one pass: the
i-th container port, tagged with the entry's protocol (default `tcp`),
is bound to a single `PortBinding` carrying the given host IP (default
`127.0.0.1`) and the i-th host port. -/
theorem getPortBindings_range_expansion
    (key value h0 h1 c0 c1 : String) (ht ct : List String) (hs he cs ce : Int) :
    goContains key '-' = true →
    goContains value '-' = true →
    goSplit (splitHost value).2 '-' = h0 :: h1 :: ht →
    goSplit (splitProto key).1 '-' = c0 :: c1 :: ct →
    atoi h0 = some hs → atoi h1 = some he →
    atoi c0 = some cs → atoi c1 = some ce →
    0 ≤ hs → 0 ≤ cs → ce < 65536 →
    rangeLen hs he = rangeLen cs ce →
    GetPortBindings [(key, value)] =
      .ok ((List.range (rangeLen cs ce)).map (fun i =>
        (itoa (cs + Int.ofNat i) ++ "/" ++ (splitProto key).2,
         [⟨(splitHost value).1, itoa (hs + Int.ofNat i)⟩]))) := by
  intro hkd hvd hhsp hcsp ha0 ha1 hb0 hb1 hhs hcs hce hlen
  have hmis : ¬(goContains key '-' ≠ goContains value '-') := by
    rw [hkd, hvd]
    simp
  have hdash : goContains (splitHost value).2 '-' = true := goSplit_two_contains hhsp
  simp only [GetPortBindings, GetPortBindingsAux, processEntry, if_neg hmis,
    expandRanges, if_pos hdash, hhsp, hcsp, ha0, ha1, hb0, hb1]
  rw [upto_map_itoa hhs, upto_map_itoa hcs, hlen]
  have hbound : ∀ i, i < rangeLen cs ce → cs.toNat + i < 65536 := by
    intro i hi
    simp only [rangeLen] at hi
    omega
  have hfresh : ∀ i, i < rangeLen cs ce →
      ∀ p ∈ ([] : PortMap), p.1 ≠ natStr (cs.toNat + i) ++ "/" ++ (splitProto key).2 := by
    intro i _ p hp
    cases hp
  rw [bindLoop_expand (rangeLen cs ce) cs.toNat hs.toNat [] hbound hfresh]
  simp only [List.nil_append]
  congr 1
  apply List.map_congr_left
  intro i _
  rw [itoa_ofNat_add hcs i, itoa_ofNat_add hhs i]

theorem getPortBindings_range_expansion_witness :
    GetPortBindings [("80-81/udp", "0.0.0.0:9080-9081")] =
      .ok [("80/udp", [⟨"0.0.0.0", "9080"⟩]), ("81/udp", [⟨"0.0.0.0", "9081"⟩])] := by
  have h := getPortBindings_range_expansion "80-81/udp" "0.0.0.0:9080-9081"
    "9080" "9081" "80" "81" [] [] 9080 9081 80 81
    (by decide) (by decide) (by decide) (by decide) (by decide) (by decide)
    (by decide) (by decide) (by decide) (by decide) (by decide) (by decide)
  rw [h]
  decide

/-! Environment assembly (claims C6 and C8). -/

theorem envFilesLoop_readAll {fs : FileSys} :
    ∀ {files : List String} {cs : List String} (env : List String),
      readAll fs files = .ok cs →
      Rev0.envFilesLoop fs files env = .ok (env ++ cs.flatMap splitLines) := by
  intro files
  induction files with
  | nil =>
    intro cs env h
    simp only [readAll] at h
    have hcs : cs = [] := (Except.ok.inj h).symm
    subst hcs
    simp [Rev0.envFilesLoop]
  | cons f rest ih =>
    intro cs env h
    simp only [readAll] at h
    cases hf : fs f with
    | error e => rw [hf] at h; simp at h
    | ok content =>
      rw [hf] at h
      cases hr : readAll fs rest with
      | error e => rw [hr] at h; simp at h
      | ok cs' =>
        rw [hr] at h
        have hcs : cs = content :: cs' := (Except.ok.inj h).symm
        subst hcs
        simp only [Rev0.envFilesLoop, hf]
        rw [ih (env ++ splitLines content) hr]
        simp [List.append_assoc]

/-- C6: `GetContainerEnv` of the unnamed revision yields the
target/OS-level environment variable list followed by the
newline-split contents of every referenced env file, concatenated in
order, with every line passed through verbatim. -/
theorem getContainerEnv_concat (fs : FileSys) (target : CTarget)
    (cs : List String) (h : readAll fs target.srcsEnvs = .ok cs) :
    Rev0.GetContainerEnv fs target =
      .ok (target.envVarsList ++ cs.flatMap splitLines) :=
  envFilesLoop_readAll target.envVarsList h

theorem getContainerEnv_concat_witness :
    Rev0.GetContainerEnv
      (fun f => if f = "a.env" then .ok "A=1\nB=2\n" else .ok "C=3")
      ⟨["OS=linux"], ["a.env", "b.env"], [], "/w"⟩ =
      .ok ["OS=linux", "A=1", "B=2", "", "C=3"] := by
  have h := getContainerEnv_concat
    (fun f => if f = "a.env" then .ok "A=1\nB=2\n" else .ok "C=3")
    ⟨["OS=linux"], ["a.env", "b.env"], [], "/w"⟩
    ["A=1\nB=2\n", "C=3"] (by decide)
  rw [h]
  decide

/-- C8 (counterexample): `GetContainerEnv` is not free of file reads:
its result depends on the contents the file system returns for the
referenced env file, so on two file systems that differ only in file
contents it produces different results on the same target. -/
theorem getContainerEnv_reads_files_cx :
    Rev0.GetContainerEnv (fun _ => .ok "A=1") ⟨[], ["x.env"], [], ""⟩ ≠
      Rev0.GetContainerEnv (fun _ => .ok "B=2") ⟨[], ["x.env"], [], ""⟩ := by
  decide

theorem envFilesLoop_congr {fs1 fs2 : FileSys} :
    ∀ (files : List String) (env : List String),
      (∀ f ∈ files, fs1 f = fs2 f) →
      Rev0.envFilesLoop fs1 files env = Rev0.envFilesLoop fs2 files env := by
  intro files
  induction files with
  | nil => intro env _; rfl
  | cons f rest ih =>
    intro env h
    have hf := h f (List.mem_cons_self f rest)
    simp only [Rev0.envFilesLoop, ← hf]
    cases hv : fs1 f with
    | error e => simp [hv]
    | ok content =>
      simp only [hv]
      exact ih _ (fun x hx => h x (List.mem_cons_of_mem _ hx))

/-- C8 (amended): `GetPortBindings` is a pure function of the ports
map (equal inputs give equal results), and `GetContainerEnv` is
deterministic given the target and the contents of the referenced env
files — but it does read those files: its result depends only on the
target and on what the file system returns for the files listed in
`Srcs["_envs"]`. -/
theorem helpers_deterministic_amended :
    (∀ p1 p2 : List (String × String), p1 = p2 →
        GetPortBindings p1 = GetPortBindings p2) ∧
    (∀ (fs1 fs2 : FileSys) (target : CTarget),
        (∀ f ∈ target.srcsEnvs, fs1 f = fs2 f) →
        Rev0.GetContainerEnv fs1 target = Rev0.GetContainerEnv fs2 target) := by
  constructor
  · intro p1 p2 h
    rw [h]
  · intro fs1 fs2 target h
    exact envFilesLoop_congr target.srcsEnvs target.envVarsList h

theorem helpers_deterministic_amended_witness :
    GetPortBindings [("80", "90")] = GetPortBindings [("80", "90")] ∧
    Rev0.GetContainerEnv (fun _ => .ok "A=1") ⟨[], ["x.env"], [], ""⟩ =
      Rev0.GetContainerEnv (fun f => if f = "x.env" then .ok "A=1" else .ok "other")
        ⟨[], ["x.env"], [], ""⟩ :=
  ⟨helpers_deterministic_amended.1 _ _ rfl,
   helpers_deterministic_amended.2 _ _ ⟨[], ["x.env"], [], ""⟩ (by decide)⟩

/-! Image build, deploy and load scripts (claims C3, C4 and C10). -/

theorem buildArgsFlatten_eq_flatMap (l : List (String × String)) :
    Image.buildArgsFlatten l =
      l.flatMap (fun kv => ["--build-arg", kv.1 ++ "=" ++ kv.2]) := by
  induction l with
  | nil => rfl
  | cons kv rest ih => simp [Image.buildArgsFlatten, ih]

/-- C3: the build script hands `target.Exec` exactly the argument
vector `buildx build <context> --output type=docker,dest=<cwd>/image.tar
--file <dockerfile>` followed by one `--build-arg K=V` pair per
interpolated build arg, in that order. -/
theorem imageBuild_args_order
    (interpMap : List (String × String) → Except String (List (String × String)))
    (dic : Image.DockerImageConfig) (t : Image.ITarget)
    (bas : List (String × String)) (h : interpMap dic.BuildArgs = .ok bas) :
    Image.buildRun interpMap dic t =
      .ok ⟨[t.tools "buildx", "build",
            (match dic.Context with
             | some c => filepathJoin t.Cwd c
             | none => t.Cwd),
            "--output", "type=docker,dest=" ++ t.Cwd ++ "/image.tar",
            "--file", t.dockerfile0] ++
          bas.flatMap (fun kv => ["--build-arg", kv.1 ++ "=" ++ kv.2]),
          "docker build"⟩ := by
  simp only [Image.buildRun, h, buildArgsFlatten_eq_flatMap]

theorem imageBuild_args_order_witness :
    Image.buildRun (fun l => .ok l)
      ⟨[("K", "V")], "myimg", some "sub", none, ["latest"]⟩
      ⟨"/w", (fun s => if s = "buildx" then "/bin/buildx" else "/bin/crane"),
        "Dockerfile", (fun _ => none)⟩ =
      .ok ⟨["/bin/buildx", "build", "/w/sub", "--output",
            "type=docker,dest=/w/image.tar", "--file", "Dockerfile",
            "--build-arg", "K=V"], "docker build"⟩ := by
  have h := imageBuild_args_order (fun l => .ok l)
    ⟨[("K", "V")], "myimg", some "sub", none, ["latest"]⟩
    ⟨"/w", (fun s => if s = "buildx" then "/bin/buildx" else "/bin/crane"),
      "Dockerfile", (fun _ => none)⟩
    [("K", "V")] rfl
  rw [h]
  decide

theorem tagLoop_all_ok {exec : Image.Exec} {crane t0 : String} :
    ∀ {tags : List String},
      (∀ tg ∈ tags, exec [crane, "tag", t0, tg] "tagging image" = none) →
      Image.tagLoop exec crane t0 tags =
        (tags.map (fun tg => ⟨[crane, "tag", t0, tg], "tagging image"⟩), .ok ()) := by
  intro tags
  induction tags with
  | nil => intro _; rfl
  | cons tg rest ih =>
    intro h
    simp only [Image.tagLoop, h tg (List.mem_cons_self _ _)]
    rw [ih (fun x hx => h x (List.mem_cons_of_mem _ hx))]
    rfl

theorem tagLoop_fail_at {exec : Image.Exec} {crane t0 : String} :
    ∀ (good : List String) (bad : String) (rest : List String) (e : String),
      (∀ tg ∈ good, exec [crane, "tag", t0, tg] "tagging image" = none) →
      exec [crane, "tag", t0, bad] "tagging image" = some e →
      Image.tagLoop exec crane t0 (good ++ bad :: rest) =
        ((good ++ [bad]).map
          (fun tg => ⟨[crane, "tag", t0, tg], "tagging image"⟩),
         .errRet none e) := by
  intro good
  induction good with
  | nil =>
    intro bad rest e _ hbad
    simp only [List.nil_append, Image.tagLoop, hbad]
    rfl
  | cons g grest ih =>
    intro bad rest e hgood hbad
    simp only [List.cons_append, Image.tagLoop, hgood g (List.mem_cons_self _ _),
      List.append_eq]
    rw [ih bad rest e (fun x hx => hgood x (List.mem_cons_of_mem _ hx)) hbad]
    rfl

/-- C4: with at least one tag and a resolved registry, the deploy
script runs exactly one `crane push <cwd>/image.tar <reg>/<image>:<tag0>`;
only when that push succeeds it runs one
`crane tag <reg>/<image>:<tag0> <reg>/<image>:<tagi>` per remaining tag,
in order, and any failing call aborts the remaining sequence with that
call's error. -/
theorem imageDeploy_push_then_tags (exec : Image.Exec)
    (dic : Image.DockerImageConfig) (t : Image.ITarget) (reg tg0 : String)
    (trest : List String)
    (hreg : Image.resolveRegistry dic t = .ok reg)
    (htags : dic.Tags = tg0 :: trest) :
    ((Image.runs exec (Image.pushCall (t.tools "crane") t.Cwd
          (Image.tagRef reg dic.Image tg0)) = none →
      (∀ tg ∈ trest, Image.runs exec (Image.tagCall (t.tools "crane")
          (Image.tagRef reg dic.Image tg0) (Image.tagRef reg dic.Image tg)) = none) →
      Image.deployRun exec dic t =
        (Image.pushCall (t.tools "crane") t.Cwd (Image.tagRef reg dic.Image tg0) ::
          trest.map (fun tg => Image.tagCall (t.tools "crane")
            (Image.tagRef reg dic.Image tg0) (Image.tagRef reg dic.Image tg)),
         .ok ())) ∧
     (∀ e, Image.runs exec (Image.pushCall (t.tools "crane") t.Cwd
          (Image.tagRef reg dic.Image tg0)) = some e →
      Image.deployRun exec dic t =
        ([Image.pushCall (t.tools "crane") t.Cwd (Image.tagRef reg dic.Image tg0)],
         .errRet none e)) ∧
     (∀ (good : List String) (bad : String) (grest : List String) (e : String),
        trest = good ++ bad :: grest →
        Image.runs exec (Image.pushCall (t.tools "crane") t.Cwd
          (Image.tagRef reg dic.Image tg0)) = none →
        (∀ tg ∈ good, Image.runs exec (Image.tagCall (t.tools "crane")
          (Image.tagRef reg dic.Image tg0) (Image.tagRef reg dic.Image tg)) = none) →
        Image.runs exec (Image.tagCall (t.tools "crane")
          (Image.tagRef reg dic.Image tg0) (Image.tagRef reg dic.Image bad)) = some e →
        Image.deployRun exec dic t =
          (Image.pushCall (t.tools "crane") t.Cwd (Image.tagRef reg dic.Image tg0) ::
            (good ++ [bad]).map (fun tg => Image.tagCall (t.tools "crane")
              (Image.tagRef reg dic.Image tg0) (Image.tagRef reg dic.Image tg)),
           .errRet none e))) := by
  refine ⟨?_, ?_, ?_⟩
  · intro hpush htags2
    simp only [Image.deployRun, hreg, htags, List.map_cons]
    simp only [Image.runs, Image.pushCall, Image.tagRef] at hpush
    simp only [hpush]
    rw [@tagLoop_all_ok exec (t.tools "crane") (reg ++ "/" ++ dic.Image ++ ":" ++ tg0)
      (trest.map (fun tg => reg ++ "/" ++ dic.Image ++ ":" ++ tg))
      (by
        intro x hx
        obtain ⟨tg, htg, hxeq⟩ := List.mem_map.mp hx
        subst hxeq
        have := htags2 tg htg
        simpa [Image.runs, Image.tagCall, Image.tagRef] using this)]
    simp [Image.pushCall, Image.tagCall, Image.tagRef, List.map_map]
  · intro e hpush
    simp only [Image.deployRun, hreg, htags, List.map_cons]
    simp only [Image.runs, Image.pushCall, Image.tagRef] at hpush
    simp only [hpush]
    simp [Image.pushCall, Image.tagRef]
  · intro good bad grest e hsplit hpush hgood hbad
    simp only [Image.deployRun, hreg, htags, List.map_cons]
    simp only [Image.runs, Image.pushCall, Image.tagRef] at hpush
    simp only [hpush, hsplit, List.map_append, List.map_cons]
    rw [tagLoop_fail_at (good.map (fun tg => reg ++ "/" ++ dic.Image ++ ":" ++ tg))
      (reg ++ "/" ++ dic.Image ++ ":" ++ bad) (grest.map (fun tg => reg ++ "/" ++ dic.Image ++ ":" ++ tg)) e
      (by
        intro x hx
        obtain ⟨tg, htg, hxeq⟩ := List.mem_map.mp hx
        subst hxeq
        have := hgood tg htg
        simpa [Image.runs, Image.tagCall, Image.tagRef] using this)
      (by simpa [Image.runs, Image.tagCall, Image.tagRef] using hbad)]
    simp [Image.pushCall, Image.tagCall, Image.tagRef, List.map_map, List.map_append]

theorem imageDeploy_push_then_tags_witness :
    Image.deployRun (fun _ _ => none)
      ⟨[], "img", none, some "r.io", ["v1", "v2"]⟩
      ⟨"/w", (fun _ => "/bin/crane"), "Dockerfile", (fun _ => none)⟩ =
      (⟨["/bin/crane", "push", "/w/image.tar", "r.io/img:v1"], "pushing image"⟩ ::
        [⟨["/bin/crane", "tag", "r.io/img:v1", "r.io/img:v2"], "tagging image"⟩],
       .ok ()) := by
  have h := (imageDeploy_push_then_tags (fun _ _ => none)
    ⟨[], "img", none, some "r.io", ["v1", "v2"]⟩
    ⟨"/w", (fun _ => "/bin/crane"), "Dockerfile", (fun _ => none)⟩
    "r.io" "v1" ["v2"] rfl rfl).1 rfl (by intro tg _; rfl)
  rw [h]
  decide

/-- C10: with a nil `Registry`, the load script dereferences the nil
pointer when building the image tag (a runtime panic), while the
deploy script guards the same case and returns an error when
`DOCKER_REGISTRY` is not set either. -/
theorem imageLoad_nil_registry (exec : Image.Exec)
    (dic : Image.DockerImageConfig) (t : Image.ITarget) (tg0 : String)
    (trest : List String) (hreg : dic.Registry = none)
    (htags : dic.Tags = tg0 :: trest) :
    Image.loadRun exec dic t =
      ([], .crash "invalid memory address or nil pointer dereference") ∧
    (t.env "DOCKER_REGISTRY" = none →
      Image.deployRun exec dic t =
        ([], .errRet none
          "need to provide a docker registry or a default via DOCKER_REGISTRY env")) := by
  constructor
  · simp only [Image.loadRun, htags, hreg]
  · intro henv
    simp only [Image.deployRun, Image.resolveRegistry, hreg, henv]

/-! Container deploy scripts against the engine model (claims C5, C7). -/

theorem pullImage_containers (s : DockerState) (img : String) :
    (pullImage s img).containers = s.containers := by
  rw [pullImage]
  split <;> rfl

theorem pullImage_nextId (s : DockerState) (img : String) :
    (pullImage s img).nextId = s.nextId := by
  rw [pullImage]
  split <;> rfl

theorem inspectOk_pull (s : DockerState) (img name : String) :
    inspectOk (pullImage s img) name = inspectOk s name := by
  rw [inspectOk, inspectOk, pullImage_containers]

theorem pullImage_mem (s : DockerState) (img : String) :
    img ∈ (pullImage s img).images := by
  by_cases h : img ∈ s.images
  · rw [pullImage, if_pos h]
    exact h
  · rw [pullImage, if_neg h]
    show img ∈ s.images ++ [img]
    exact List.mem_append_right _ (List.mem_singleton.mpr rfl)

theorem pullImage_idem {s : DockerState} {img : String} (h : img ∈ s.images) :
    pullImage s img = s := by
  rw [pullImage, if_pos h]

theorem rev1_run_inspected {fs : FileSys} {interp : Interp}
    {dcc : Rev1.DockerContainerConfig} {target : CTarget} {s : DockerState}
    (h : inspectOk s dcc.ContainerName = true) :
    Rev1.deployRun fs interp dcc target s =
      ([ApiCall.imagePull dcc.Image, ApiCall.containerInspect dcc.ContainerName],
       pullImage s dcc.Image, .ok ()) := by
  have h1 : inspectOk (pullImage s dcc.Image) dcc.ContainerName = true := by
    rw [inspectOk_pull]
    exact h
  simp [Rev1.deployRun, h1]

theorem rev0_run_inspected {fs : FileSys} {dcc : Rev0.DockerContainerConfig}
    {target : CTarget} {s : DockerState}
    (h : inspectOk s dcc.ContainerName = true) :
    Rev0.deployRun fs dcc target s =
      ([ApiCall.containerInspect dcc.ContainerName], s, .ok ()) := by
  simp [Rev0.deployRun, h]

theorem rev1_run_created {fs : FileSys} {interp : Interp}
    {dcc : Rev1.DockerContainerConfig} {target : CTarget} {s : DockerState}
    {env : List String} {ports : PortMap} {mounts : List Mount}
    (hins : inspectOk s dcc.ContainerName = false)
    (henv : Rev1.GetContainerEnv fs interp target = .ok env)
    (hports : GetPortBindings dcc.Ports = .ok ports)
    (hvol : Rev1.volumesLoop interp dcc.Volumes [] = .ok mounts) :
    Rev1.deployRun fs interp dcc target s =
      ([ApiCall.imagePull dcc.Image,
        ApiCall.containerInspect dcc.ContainerName,
        ApiCall.containerCreate
          ⟨dcc.Image, env,
           (if dcc.Command ≠ "" then goSplit dcc.Command ' ' else []),
           (if dcc.Entrypoint ≠ "" then goSplit dcc.Entrypoint ' ' else [])⟩
          ⟨ports, mounts,
           (match dcc.Memory with | some mem => mem * 1000000 | none => 0),
           (match dcc.Cpu with | some cpu => cpu * 1000000000 | none => 0)⟩
          dcc.ContainerName,
        ApiCall.containerStart ("c" ++ natStr s.nextId)],
       { images := (pullImage s dcc.Image).images,
         containers := ((pullImage s dcc.Image).containers ++
             ([⟨dcc.ContainerName, "c" ++ natStr s.nextId, false⟩] : List DContainer)).map
           (fun (c : DContainer) => if c.id = "c" ++ natStr s.nextId then
             { c with running := true } else c),
         nextId := s.nextId + 1 },
       .ok ()) := by
  have hins' : inspectOk (pullImage s dcc.Image) dcc.ContainerName = false := by
    rw [inspectOk_pull]
    exact hins
  have hnid : (pullImage s dcc.Image).nextId = s.nextId := pullImage_nextId s dcc.Image
  simp [Rev1.deployRun, hins', henv, hports, hvol, createContainer, startContainer,
    hnid, List.any_append]

theorem rev0_run_created {fs : FileSys} {dcc : Rev0.DockerContainerConfig}
    {target : CTarget} {s : DockerState} {env : List String} {ports : PortMap}
    (hins : inspectOk s dcc.ContainerName = false)
    (henv : Rev0.GetContainerEnv fs target = .ok env)
    (hports : GetPortBindings dcc.Ports = .ok ports) :
    Rev0.deployRun fs dcc target s =
      ([ApiCall.containerInspect dcc.ContainerName,
        ApiCall.containerCreate
          ⟨dcc.Image, env,
           (if dcc.Command ≠ "" then goSplit dcc.Command ' ' else []),
           (if dcc.Entrypoint ≠ "" then goSplit dcc.Entrypoint ' ' else [])⟩
          ⟨ports, dcc.Volumes.map (fun kv => ⟨kv.1, kv.2⟩), 0, 0⟩
          dcc.ContainerName,
        ApiCall.containerStart ("c" ++ natStr s.nextId),
        ApiCall.containerWait ("c" ++ natStr s.nextId)],
       { images := s.images,
         containers := (s.containers ++
             ([⟨dcc.ContainerName, "c" ++ natStr s.nextId, false⟩] : List DContainer)).map
           (fun (c : DContainer) => if c.id = "c" ++ natStr s.nextId then
             { c with running := true } else c),
         nextId := s.nextId + 1 },
       .ok ()) := by
  simp [Rev0.deployRun, hins, henv, hports, createContainer, startContainer,
    waitContainer, List.any_append]

/-- C5: once `ContainerInspect` on the configured name succeeds, the
container.go deploy `Run` returns success right away, issuing only the
pull and the inspect (no create, no start, no reconciliation); hence a
second deploy run after a successful first run reaches the same Docker
state it started from. -/
theorem containerDeploy_idempotent :
    (∀ (fs : FileSys) (interp : Interp) (dcc : Rev1.DockerContainerConfig)
        (target : CTarget) (s : DockerState),
        inspectOk s dcc.ContainerName = true →
        Rev1.deployRun fs interp dcc target s =
          ([ApiCall.imagePull dcc.Image, ApiCall.containerInspect dcc.ContainerName],
           pullImage s dcc.Image, .ok ())) ∧
    (∀ (fs : FileSys) (interp : Interp) (dcc : Rev1.DockerContainerConfig)
        (target : CTarget) (s0 : DockerState) (tr : List ApiCall) (s1 : DockerState),
        Rev1.deployRun fs interp dcc target s0 = (tr, s1, .ok ()) →
        Rev1.deployRun fs interp dcc target s1 =
          ([ApiCall.imagePull dcc.Image, ApiCall.containerInspect dcc.ContainerName],
           s1, .ok ())) := by
  constructor
  · intro fs interp dcc target s h
    exact rev1_run_inspected h
  · intro fs interp dcc target s0 tr s1 h
    have hkey : inspectOk s1 dcc.ContainerName = true ∧ dcc.Image ∈ s1.images := by
      by_cases hins : inspectOk s0 dcc.ContainerName = true
      · rw [rev1_run_inspected hins] at h
        have hs1 : s1 = pullImage s0 dcc.Image := by
          have hproj := congrArg
            (fun x : List ApiCall × DockerState × GoOutcome Unit => x.2.1) h
          simpa using hproj.symm
        constructor
        · rw [hs1, inspectOk_pull]
          exact hins
        · rw [hs1]
          exact pullImage_mem s0 dcc.Image
      · have hins' : inspectOk s0 dcc.ContainerName = false := by
          simpa using hins
        cases henv : Rev1.GetContainerEnv fs interp target with
        | error e =>
          simp [Rev1.deployRun, inspectOk_pull, hins', henv] at h
        | ok env =>
          cases hports : GetPortBindings dcc.Ports with
          | crash e =>
            simp [Rev1.deployRun, inspectOk_pull, hins', henv, hports] at h
          | errRet mm e =>
            simp [Rev1.deployRun, inspectOk_pull, hins', henv, hports] at h
          | ok ports =>
            cases hvol : Rev1.volumesLoop interp dcc.Volumes [] with
            | error ke =>
              simp [Rev1.deployRun, inspectOk_pull, hins', henv, hports, hvol] at h
            | ok mounts =>
              rw [rev1_run_created hins' henv hports hvol] at h
              have hs1 : s1 =
                  { images := (pullImage s0 dcc.Image).images,
                    containers := ((pullImage s0 dcc.Image).containers ++
                        ([⟨dcc.ContainerName, "c" ++ natStr s0.nextId, false⟩] :
                          List DContainer)).map
                      (fun (c : DContainer) =>
                        if c.id = "c" ++ natStr s0.nextId then
                          { c with running := true } else c),
                    nextId := s0.nextId + 1 } := by
                have hproj := congrArg
                  (fun x : List ApiCall × DockerState × GoOutcome Unit => x.2.1) h
                simpa using hproj.symm
              constructor
              · rw [hs1]
                simp [inspectOk, List.any_append, List.any_map]
              · rw [hs1]
                exact pullImage_mem s0 dcc.Image
      -- the hypothesis name hins' is only in scope inside the branch
    obtain ⟨h1, h2⟩ := hkey
    rw [rev1_run_inspected h1, pullImage_idem h2]

theorem containerDeploy_idempotent_witness :
    Rev1.deployRun (fun _ => .error "nofs") (fun x => .ok x)
      ⟨none, none, "web", "img", "", "", [], []⟩ ⟨[], [], [], ""⟩
      ⟨["img"], [⟨"web", "c0", true⟩], 1⟩ =
      ([ApiCall.imagePull "img", ApiCall.containerInspect "web"],
       ⟨["img"], [⟨"web", "c0", true⟩], 1⟩, .ok ()) ∧
    Rev1.deployRun (fun _ => .error "nofs") (fun x => .ok x)
      ⟨none, none, "web", "img", "", "", [], []⟩ ⟨[], [], [], ""⟩
      ⟨["img"], [⟨"web", "c0", true⟩], 1⟩ =
      ([ApiCall.imagePull "img", ApiCall.containerInspect "web"],
       ⟨["img"], [⟨"web", "c0", true⟩], 1⟩, .ok ()) := by
  constructor
  · have h := containerDeploy_idempotent.1 (fun _ => .error "nofs") (fun x => .ok x)
      ⟨none, none, "web", "img", "", "", [], []⟩ ⟨[], [], [], ""⟩
      ⟨["img"], [⟨"web", "c0", true⟩], 1⟩ (by decide)
    rw [h]
    decide
  · exact containerDeploy_idempotent.2 (fun _ => .error "nofs") (fun x => .ok x)
      ⟨none, none, "web", "img", "", "", [], []⟩ ⟨[], [], [], ""⟩
      ⟨["img"], [⟨"web", "c0", true⟩], 1⟩
      [ApiCall.imagePull "img", ApiCall.containerInspect "web"]
      ⟨["img"], [⟨"web", "c0", true⟩], 1⟩ (by decide)

/-- C7 (counterexample): a full successful run of the container.go
deploy script issues pull, inspect, create and start — four calls and
no `ContainerWait` — although the claim lists a wait step. -/
theorem containerDeploy_no_wait_cx :
    ((Rev1.deployRun (fun _ => .error "nofs") (fun x => .ok x)
        ⟨none, none, "web", "img", "", "", [], []⟩ ⟨[], [], [], ""⟩
        ⟨[], [], 0⟩).1.any isWaitCall = false) ∧
    ((Rev1.deployRun (fun _ => .error "nofs") (fun x => .ok x)
        ⟨none, none, "web", "img", "", "", [], []⟩ ⟨[], [], [], ""⟩
        ⟨[], [], 0⟩).2.2 = .ok ()) ∧
    ((Rev1.deployRun (fun _ => .error "nofs") (fun x => .ok x)
        ⟨none, none, "web", "img", "", "", [], []⟩ ⟨[], [], [], ""⟩
        ⟨[], [], 0⟩).1.length = 4) := by
  refine ⟨by decide, by decide, by decide⟩

/-- C7 (amended): the deploy `Run` of the container.go revision
performs, in order, image pull, container inspect, and — only when the
inspect fails — container create and container start, with no
container wait; the unnamed revision omits the pull (it is commented
out) and appends a container wait after the start. -/
theorem containerDeploy_call_order_amended :
    (∀ (fs : FileSys) (interp : Interp) (dcc : Rev1.DockerContainerConfig)
        (target : CTarget) (s : DockerState) (env : List String)
        (ports : PortMap) (mounts : List Mount),
        inspectOk s dcc.ContainerName = false →
        Rev1.GetContainerEnv fs interp target = .ok env →
        GetPortBindings dcc.Ports = .ok ports →
        Rev1.volumesLoop interp dcc.Volumes [] = .ok mounts →
        (Rev1.deployRun fs interp dcc target s).1 =
          [ApiCall.imagePull dcc.Image,
           ApiCall.containerInspect dcc.ContainerName,
           ApiCall.containerCreate
             ⟨dcc.Image, env,
              (if dcc.Command ≠ "" then goSplit dcc.Command ' ' else []),
              (if dcc.Entrypoint ≠ "" then goSplit dcc.Entrypoint ' ' else [])⟩
             ⟨ports, mounts,
              (match dcc.Memory with | some mem => mem * 1000000 | none => 0),
              (match dcc.Cpu with | some cpu => cpu * 1000000000 | none => 0)⟩
             dcc.ContainerName,
           ApiCall.containerStart ("c" ++ natStr s.nextId)] ∧
        (Rev1.deployRun fs interp dcc target s).2.2 = .ok ()) ∧
    (∀ (fs : FileSys) (dcc : Rev0.DockerContainerConfig) (target : CTarget)
        (s : DockerState) (env : List String) (ports : PortMap),
        inspectOk s dcc.ContainerName = false →
        Rev0.GetContainerEnv fs target = .ok env →
        GetPortBindings dcc.Ports = .ok ports →
        (Rev0.deployRun fs dcc target s).1 =
          [ApiCall.containerInspect dcc.ContainerName,
           ApiCall.containerCreate
             ⟨dcc.Image, env,
              (if dcc.Command ≠ "" then goSplit dcc.Command ' ' else []),
              (if dcc.Entrypoint ≠ "" then goSplit dcc.Entrypoint ' ' else [])⟩
             ⟨ports, dcc.Volumes.map (fun kv => ⟨kv.1, kv.2⟩), 0, 0⟩
             dcc.ContainerName,
           ApiCall.containerStart ("c" ++ natStr s.nextId),
           ApiCall.containerWait ("c" ++ natStr s.nextId)] ∧
        (Rev0.deployRun fs dcc target s).2.2 = .ok ()) ∧
    (∀ (fs : FileSys) (interp : Interp) (dcc : Rev1.DockerContainerConfig)
        (target : CTarget) (s : DockerState),
        inspectOk s dcc.ContainerName = true →
        (Rev1.deployRun fs interp dcc target s).1 =
          [ApiCall.imagePull dcc.Image, ApiCall.containerInspect dcc.ContainerName]) ∧
    (∀ (fs : FileSys) (dcc : Rev0.DockerContainerConfig) (target : CTarget)
        (s : DockerState),
        inspectOk s dcc.ContainerName = true →
        (Rev0.deployRun fs dcc target s).1 =
          [ApiCall.containerInspect dcc.ContainerName]) := by
  refine ⟨?_, ?_, ?_, ?_⟩
  · intro fs interp dcc target s env ports mounts hins henv hports hvol
    rw [rev1_run_created hins henv hports hvol]
    exact ⟨rfl, rfl⟩
  · intro fs dcc target s env ports hins henv hports
    rw [rev0_run_created hins henv hports]
    exact ⟨rfl, rfl⟩
  · intro fs interp dcc target s h
    rw [rev1_run_inspected h]
  · intro fs dcc target s h
    rw [rev0_run_inspected h]

theorem containerDeploy_call_order_amended_witness :
    ((Rev1.deployRun (fun _ => .error "nofs") (fun x => .ok x)
        ⟨none, none, "web", "img", "", "", [], []⟩ ⟨[], [], [], ""⟩
        ⟨[], [], 0⟩).1 =
      [ApiCall.imagePull "img", ApiCall.containerInspect "web",
       ApiCall.containerCreate ⟨"img", [], [], []⟩ ⟨[], [], 0, 0⟩ "web",
       ApiCall.containerStart "c0"]) ∧
    ((Rev0.deployRun (fun _ => .error "nofs")
        ⟨"web", "img", "", "", [], []⟩ ⟨[], [], [], ""⟩ ⟨[], [], 0⟩).1 =
      [ApiCall.containerInspect "web",
       ApiCall.containerCreate ⟨"img", [], [], []⟩ ⟨[], [], 0, 0⟩ "web",
       ApiCall.containerStart "c0", ApiCall.containerWait "c0"]) := by
  constructor
  · have h := (containerDeploy_call_order_amended.1 (fun _ => .error "nofs")
      (fun x => .ok x) ⟨none, none, "web", "img", "", "", [], []⟩
      ⟨[], [], [], ""⟩ ⟨[], [], 0⟩ [] [] [] (by decide) (by decide) (by decide)
      (by decide)).1
    rw [h]
    decide
  · have h := (containerDeploy_call_order_amended.2.1 (fun _ => .error "nofs")
      ⟨"web", "img", "", "", [], []⟩ ⟨[], [], [], ""⟩ ⟨[], [], 0⟩ [] []
      (by decide) (by decide) (by decide)).1
    rw [h]
    decide

theorem imageLoad_nil_registry_witness :
    Image.loadRun (fun _ _ => none) ⟨[], "img", none, none, ["latest"]⟩
      ⟨"/w", (fun _ => ""), "Dockerfile", (fun _ => none)⟩ =
      ([], .crash "invalid memory address or nil pointer dereference") ∧
    Image.deployRun (fun _ _ => none) ⟨[], "img", none, none, ["latest"]⟩
      ⟨"/w", (fun _ => ""), "Dockerfile", (fun _ => none)⟩ =
      ([], .errRet none
        "need to provide a docker registry or a default via DOCKER_REGISTRY env") := by
  have h := imageLoad_nil_registry (fun _ _ => none)
    ⟨[], "img", none, none, ["latest"]⟩
    ⟨"/w", (fun _ => ""), "Dockerfile", (fun _ => none)⟩
    "latest" [] rfl rfl
  exact ⟨h.1, h.2 rfl⟩

theorem getPortBindings_mismatch_amended_witness :
    isErr (GetPortBindings [("80-81", "90")]) = true ∧
    GetPortBindings [("8080/udp", "10.0.0.5:9090")] =
      .ok [("8080/udp", [⟨"10.0.0.5", "9090"⟩])] := by
  constructor
  · exact getPortBindings_mismatch_amended.1 [("80-81", "90")] "80-81" "90"
      (by decide) (by decide) (by decide)
  · have h := getPortBindings_mismatch_amended.2 "8080/udp" "10.0.0.5:9090" 8080
      (by decide) (by decide) (by decide)
    rw [h]
    decide

end ZenDocker
